import Mathlib

/-!
Shallow embedding of `ADXL345_spi.py` (MicroPython SPI driver for the
ADXL345 accelerometer) and verification of its specification claims.

Bytes are modelled as `Nat` (values 0–255), byte buffers as `List Nat`,
tracked driver state as a `Config` structure, and SPI bus interaction as
explicit event traces.  Floating-point expressions of the source such as
`int(n * 1.5)` are modelled exactly (they are exact in IEEE double for all
realistic sizes) as natural-number arithmetic, e.g. `3 * n / 2`.
-/

namespace ADXL345

/-! ## Constants (from `__init__`) -/

def read_mask : Nat := 0x80
def multibyte_mask : Nat := 0x40
def nmaxvalues_infifo : Nat := 32
def bytes_per_3axes : Nat := 6
def device_id : Nat := 0xE5

def regaddr_devid : Nat := 0x00
def regaddr_acc : Nat := 0x32
def regaddr_freq : Nat := 0x2C
def regaddr_pwr : Nat := 0x2D
def regaddr_intsource : Nat := 0x30
def regaddr_grange : Nat := 0x31
def regaddr_fifoctl : Nat := 0x38
def regaddr_fifostatus : Nat := 0x39

/-- Python dict lookup `d[key]`: `none` models the `KeyError` raised when the
key is absent (raised before any bus write that would consume the value). -/
def dictGet {α β : Type} [DecidableEq α] : List (α × β) → α → Option β
  | [], _ => none
  | (k, v) :: rest, key => if key = k then some v else dictGet rest key

def power_modes : List (String × Nat) := [("standby", 0x00), ("measure", 0x08)]

def g_ranges : List (Nat × Nat) := [(2, 0x00), (4, 0x01), (8, 0x10), (16, 0x11)]

/-- The keys are the float literals `1.56, 3.13, 6.25, 12.5, 25, …, 3200` of the
source, written as exact rationals (`mkRat 156 100 = 1.56`, etc.). -/
def device_sampling_rates : List (ℚ × Nat) :=
  [(mkRat 156 100, 0x04), (mkRat 313 100, 0x05), (mkRat 625 100, 0x06), (mkRat 125 10, 0x07),
   (25, 0x08), (50, 0x09), (100, 0x0a), (200, 0x0b), (400, 0x0c), (800, 0x0d),
   (1600, 0x0e), (3200, 0x0f)]

/-! ## Sample decoder (`xyzbytes2g`, lines 422–437) -/

/-- One `'<H'` field of `ustruct.unpack('<HHH', ...)`: little-endian u16. -/
def word16le (b0 b1 : Nat) : Nat := b0 + 256 * b1

/-- The "negative values rule" of `xyzbytes2g` (lines 433–435):
`x if x <= 32767 else x - 65536`. -/
def sign_correct (w : Nat) : Int := if w ≤ 32767 then (w : Int) else (w : Int) - 65536

/-- Model of `ustruct.unpack('<HHH', l)` on a 6-byte slice. -/
def unpackHHH (l : List Nat) : Nat × Nat × Nat :=
  (word16le (l.getD 0 0) (l.getD 1 0),
   word16le (l.getD 2 0) (l.getD 3 0),
   word16le (l.getD 4 0) (l.getD 5 0))

/-- Decoder `xyzbytes2g` (lines 422–437), modelled exactly as written:
`n_act_meas = int(len(buf)/6)`; the comprehension iterates `i` over
`range(n_act_meas)` keeping only `i % 6 == 0` and unpacks `buf[i:i+6]`;
`zip(*rows)` raises `ValueError` when `rows` is empty, modelled as `none`. -/
def xyzbytes2g (buf : List Nat) : Option (List Int × List Int × List Int) :=
  let n_act_meas := buf.length / bytes_per_3axes
  let rows := ((List.range n_act_meas).filter (fun i => i % bytes_per_3axes == 0)).map
      (fun i => unpackHHH ((buf.drop i).take bytes_per_3axes))
  match rows with
  | [] => none
  | _ :: _ =>
      some (rows.map (fun r => sign_correct r.1),
            rows.map (fun r => sign_correct r.2.1),
            rows.map (fun r => sign_correct r.2.2))

/-! ## Frame stripping
(`remove_first_bytes_from_bytearray_of_many_transactions`, lines 124–131) -/

/-- Comprehension `bytearray([b for i, b in enumerate(buf) if i % (bytes_per_3axes + 1) != 0])`. -/
def remove_first_bytes_from_bytearray_of_many_transactions (buf : List Nat) : List Nat :=
  ((buf.enum).filter (fun p => p.1 % (bytes_per_3axes + 1) != 0)).map Prod.snd

/-- Recursive reformulation of the stripping comprehension, tracking the
enumeration index; used to reason about the comprehension by induction. -/
def stripFrom : Nat → List Nat → List Nat
  | _, [] => []
  | k, b :: rest => (if k % 7 ≠ 0 then [b] else []) ++ stripFrom (k + 1) rest

theorem stripFrom_eq_enumFrom (l : List Nat) :
    ∀ k, ((l.enumFrom k).filter (fun p => p.1 % 7 != 0)).map Prod.snd = stripFrom k l := by
  induction l with
  | nil => intro k; rfl
  | cons b rest ih =>
      intro k
      by_cases hk : k % 7 = 0
      · simp [List.enumFrom, List.filter, stripFrom, hk, ih]
      · have hk' : (k % 7 != 0) = true := by simpa using hk
        simp [List.enumFrom, List.filter, stripFrom, hk, hk', ih]

theorem remove_first_bytes_eq_stripFrom (buf : List Nat) :
    remove_first_bytes_from_bytearray_of_many_transactions buf = stripFrom 0 buf := by
  simpa [remove_first_bytes_from_bytearray_of_many_transactions, bytes_per_3axes,
    List.enum] using stripFrom_eq_enumFrom buf 0

theorem stripFrom_append (l₁ l₂ : List Nat) :
    ∀ k, stripFrom k (l₁ ++ l₂) = stripFrom k l₁ ++ stripFrom (k + l₁.length) l₂ := by
  induction l₁ with
  | nil => intro k; simp [stripFrom]
  | cons b rest ih =>
      intro k
      have harith : k + 1 + rest.length = k + (rest.length + 1) := by omega
      simp [stripFrom, ih (k + 1), List.append_assoc, harith]

theorem stripFrom_congr_mod (l : List Nat) :
    ∀ k k', k % 7 = k' % 7 → stripFrom k l = stripFrom k' l := by
  induction l with
  | nil => intro k k' _; rfl
  | cons b rest ih =>
      intro k k' h
      simp only [stripFrom, h, ih (k + 1) (k' + 1) (by omega)]

theorem stripFrom_keep_all (l : List Nat) :
    ∀ k, (∀ j, j < l.length → (k + j) % 7 ≠ 0) → stripFrom k l = l := by
  induction l with
  | nil => intro k _; rfl
  | cons b rest ih =>
      intro k h
      have h0 : k % 7 ≠ 0 := by simpa using h 0 (by simp)
      have hr : ∀ j, j < rest.length → (k + 1 + j) % 7 ≠ 0 := by
        intro j hj
        have := h (j + 1) (by simpa using Nat.succ_lt_succ hj)
        omega
      simp [stripFrom, h0, ih (k + 1) hr]

theorem stripFrom_length (l : List Nat) :
    ∀ k, (stripFrom k l).length = l.length - ((k + l.length + 6) / 7 - (k + 6) / 7) := by
  induction l with
  | nil => intro k; simp [stripFrom]
  | cons b rest ih =>
      intro k
      by_cases hk : k % 7 = 0 <;>
        simp only [stripFrom, hk, if_true, if_false, ne_eq, not_true_eq_false,
          not_false_eq_true, List.length_append, List.length_cons, List.length_nil,
          ih (k + 1)] <;> omega

/-- Stripping one 7-byte transaction frame keeps its last 6 bytes. -/
theorem stripFrom_frame (f : List Nat) (hf : f.length = 7) :
    stripFrom 0 f = f.drop 1 := by
  match f, hf with
  | b :: rest, hf =>
      have hr : rest.length = 6 := by simpa using hf
      have : stripFrom 1 rest = rest := by
        refine stripFrom_keep_all rest 1 (fun j hj => ?_)
        rw [hr] at hj
        omega
      simp [stripFrom, this]

/-- Stripping a concatenation of 7-byte frames keeps each frame's last 6 bytes,
in order. -/
theorem stripFrom_join (frames : List (List Nat)) (h : ∀ f ∈ frames, f.length = 7) :
    stripFrom 0 frames.flatten = (frames.map (fun f => f.drop 1)).flatten := by
  induction frames with
  | nil => rfl
  | cons f rest ih =>
      have hf : f.length = 7 := h f (List.mem_cons_self f rest)
      have hrest : ∀ g ∈ rest, g.length = 7 := fun g hg => h g (List.mem_cons_of_mem f hg)
      calc stripFrom 0 (f :: rest).flatten
          = stripFrom 0 f ++ stripFrom (0 + f.length) rest.flatten := by
            simpa using stripFrom_append f rest.flatten 0
        _ = f.drop 1 ++ stripFrom 0 rest.flatten := by
            rw [stripFrom_frame f hf, stripFrom_congr_mod rest.flatten (0 + f.length) 0 (by simp [hf])]
        _ = ((f :: rest).map (fun f => f.drop 1)).flatten := by
            rw [ih hrest]; simp

/-! ## Tracked device configuration and the configurator
(`set_power_mode` … `set_watermark_level`, lines 134–194) -/

/-- The mutable fields `self.power_mode`, `self.fifo_mode`,
`self.watermark_level`, `self.sampling_rate`, `self.g_range` of the driver
object.  A bus write is a `(register address, byte)` pair. -/
structure Config where
  power_mode : String
  fifo_mode : String
  watermark_level : Nat
  sampling_rate : ℚ
  g_range : Nat
deriving DecidableEq

/-- Setter `set_power_mode` (lines 134–142): one write of `power_modes[mode]` to the
power register, then the tracked-state update.  The driver only ever calls it
with the keys `'standby'` and `'measure'`, so the `getD` default is unreachable. -/
def set_power_mode (cfg : Config) (mode : String) : Config × List (Nat × Nat) :=
  ({ cfg with power_mode := mode }, [(regaddr_pwr, (dictGet power_modes mode).getD 0)])

/-- Setter `set_g_range` (lines 144–152). -/
def set_g_range (cfg : Config) (grange : Nat) : Config × List (Nat × Nat) :=
  ({ cfg with g_range := grange }, [(regaddr_grange, (dictGet g_ranges grange).getD 0)])

/-- Setter `set_sampling_rate` (lines 154–161): the dict subscript
`self.device_sampling_rates[sr]` is evaluated while building the arguments of
`self.write`, so an unsupported rate raises `KeyError` (modelled as `none`)
before any bus write; otherwise exactly one write is issued and the tracked
rate updated. -/
def set_sampling_rate (cfg : Config) (sr : ℚ) : Option Config × List (Nat × Nat) :=
  match dictGet device_sampling_rates sr with
  | none => (none, [])
  | some code => (some { cfg with sampling_rate := sr }, [(regaddr_freq, code)])

/-- Length of Python's `bin(w)` digit string (without the `0b` prefix):
`bin(0) = '0b0'` has one digit. -/
def binLen (w : Nat) : Nat := (Nat.toDigits 2 w).length

/-- The FIFO-control byte computed by `set_fifo_mode` (lines 163–180):
`'bypass'` encodes as `0x00`; otherwise the byte is
`int('0b' + '100' + '{:>5}'.format(bin(w)).replace(' ', '0'), 2)`, i.e. the
bits `100` followed by the binary digits of `w` left-padded with zeros to at
least width 5. -/
def fifo_ctl_byte (mode : String) (watermark_level : Nat) : Nat :=
  if mode = "bypass" then 0x00
  else 4 * 2 ^ (max 5 (binLen watermark_level)) + watermark_level

/-- Setter `set_fifo_mode` (lines 163–180).  The Python default `watermark_level=16`
is passed explicitly by callers of this model. -/
def set_fifo_mode (cfg : Config) (mode : String) (watermark_level : Nat) :
    Config × List (Nat × Nat) :=
  ({ cfg with fifo_mode := mode, watermark_level := watermark_level },
   [(regaddr_fifoctl, fifo_ctl_byte mode watermark_level)])

/-- Setter `set_watermark_level` (lines 182–194): always stream-mode encoding. -/
def set_watermark_level (cfg : Config) (nrows : Nat) : Config × List (Nat × Nat) :=
  ({ cfg with fifo_mode := "stream", watermark_level := nrows },
   [(regaddr_fifoctl, 4 * 2 ^ (max 5 (binLen nrows)) + nrows)])

/-- Method `clear_fifo` (lines 204–210): bypass then stream. -/
def clear_fifo (cfg : Config) : Config × List (Nat × Nat) :=
  let r1 := set_fifo_mode cfg "bypass" 16
  let r2 := set_fifo_mode r1.1 "stream" 16
  (r2.1, r1.2 ++ r2.2)

/-! ## Status-bit extraction (`is_watermark_reached` … `get_nvalues_in_fifo`,
lines 215–234), as functions of the status byte read from the bus -/

/-- Bit extraction of `is_data_ready` (lines 222–227): `status >> 7 & 1` (eighth bit). -/
def is_data_ready (status_byte : Nat) : Nat := status_byte / 2 ^ 7 % 2

/-- Bit extraction of `is_watermark_reached` (lines 215–220): `status >> 1 & 1` (second bit). -/
def is_watermark_reached (status_byte : Nat) : Nat := status_byte / 2 % 2

/-- Mask of `get_nvalues_in_fifo` (lines 229–234): `status & 0x3f`, the low six bits
(written `% 64`). -/
def get_nvalues_in_fifo (status_byte : Nat) : Nat := status_byte % 64

/-! ## Acquisition engine -/

/-- Expression `int(acquisition_time * self.sampling_rate)` for an integer duration and a
nonnegative rational rate: `a * (num/den)` truncated toward zero equals
`(a * num) / den` in floor division. -/
def n_expected (acquisition_time : Nat) (rate : ℚ) : Nat :=
  acquisition_time * rate.num.toNat / rate.den

/-- Model of `spi.readinto(m[start : start + len(sample)], …)`: overwrite the slice of
`buf` beginning at `start` with the bytes of `sample`.  A memoryview slice
reaching past the end of the buffer is clamped, and `readinto` then stores
correspondingly fewer bytes. -/
def writeSlot (buf : List Nat) (start : Nat) (sample : List Nat) : List Nat :=
  buf.take start ++ sample.take (buf.length - start) ++ buf.drop (start + sample.length)

theorem writeSlot_length (buf : List Nat) (start : Nat) (sample : List Nat) :
    (writeSlot buf start sample).length = buf.length := by
  simp [writeSlot]
  omega

/-- One iteration's worth of bus responses for the polled-on-flag loops: the
interrupt-source status byte, and the 7-byte acceleration frame plus
`ticks_us()` value used if the data-ready bit is set.  `fault` is a bus/runtime
exception raised inside the loop body, which propagates out of the method. -/
inductive PollEvent where
  | step : Nat → (Fin 7 → Nat) → Int → PollEvent
  | fault : PollEvent

/-- The polled-on-flag acquisition loop shared by `read_many_xyz`
(lines 259–269) and `read_continuos_xyz` (lines 344–356): while
`n_act_meas < n_exp`, read the status byte; if bit 7 is clear, `continue`;
otherwise read a 7-byte frame into the slot at
`n_act_meas * (bytes_per_3axes + 1)`, record the timestamp at index
`n_act_meas`, and increment `n_act_meas`.  `none` models an exception
(or an exhausted response trace, i.e. a loop still spinning). -/
def rcLoop (n_exp : Nat) : List PollEvent → Nat → List Nat → List Int →
    Option (Nat × List Nat × List Int)
  | [], n_act, buf, T => if n_exp ≤ n_act then some (n_act, buf, T) else none
  | e :: rest, n_act, buf, T =>
      if n_exp ≤ n_act then some (n_act, buf, T)
      else
        match e with
        | .fault => none
        | .step status sample t =>
            if is_data_ready status = 0 then
              rcLoop n_exp rest n_act buf T
            else
              rcLoop n_exp rest (n_act + 1)
                (writeSlot buf (n_act * (bytes_per_3axes + 1)) (List.ofFn sample))
                (T.set n_act t)

/-- Method `read_many_xyz` (lines 236–278): buffer sized exactly
`(bytes_per_3axes + 1) * n`, timestamp list over-allocated to `int(n * 1.5)`;
after the loop the artifact bytes are stripped and `T` truncated to `n`. -/
def read_many_xyz (n : Nat) (events : List PollEvent) : Option (List Nat × List Int) :=
  let n_exp_bytes := (bytes_per_3axes + 1) * n
  let T0 : List Int := List.replicate (3 * n / 2) 0
  let buf0 : List Nat := List.replicate n_exp_bytes 0
  match rcLoop n events 0 buf0 T0 with
  | none => none
  | some r =>
      some (remove_first_bytes_from_bytearray_of_many_transactions r.2.1, r.2.2.take n)

/-- Method `read_continuos_xyz` (lines 312–368): FIFO to bypass, power to `measure`,
the polled loop for `int(acquisition_time * sampling_rate)` samples, power back
to `standby` only on normal fall-through (there is no `try/finally`), then
stripping and truncation.  The returned `Config` is the tracked state at the
point the method exits (normally or by a propagating exception). -/
def read_continuos_xyz (cfg : Config) (acquisition_time : Nat) (events : List PollEvent) :
    Config × Option (List Nat × List Int) :=
  let n_exp_meas := n_expected acquisition_time cfg.sampling_rate
  let n_exp_bytes := (bytes_per_3axes + 1) * n_exp_meas
  let T0 : List Int := List.replicate (3 * n_exp_meas / 2) 0
  let buf0 : List Nat := List.replicate (3 * n_exp_bytes / 2) 0
  let cfg1 := (set_fifo_mode cfg "bypass" 16).1
  let cfg2 := (set_power_mode cfg1 "measure").1
  match rcLoop n_exp_meas events 0 buf0 T0 with
  | none => (cfg2, none)
  | some r =>
      let cfg3 := (set_power_mode cfg2 "standby").1
      let buf1 := (remove_first_bytes_from_bytearray_of_many_transactions r.2.1).take
          (n_exp_meas * bytes_per_3axes)
      (cfg3, some (buf1, r.2.2.take r.1))

/-- One iteration's worth of bus responses for the FIFO-drain loop of
`read_continuos_xyz_fromfifo`: the raw FIFO-status byte returned by the poll,
and the frames returned by the subsequent batch of fetches.  `fault` is an
exception raised inside the loop. -/
inductive FifoEvent where
  | poll : Nat → (Nat → Fin 7 → Nat) → FifoEvent
  | fault : FifoEvent

/-- The inner batch of `read_continuos_xyz_fromfifo` (lines 402–406):
`for _ in range(nvalues_infifo)`, fetch one 7-byte frame into the slot at
`n_act_meas * (bytes_per_3axes + 1)` and increment `n_act_meas` — with no
re-check of the target between the fetches. -/
def batchFetch : Nat → Nat → (Nat → Fin 7 → Nat) → List Nat → List Nat × Nat
  | 0, n_act, _, buf => (buf, n_act)
  | k + 1, n_act, samples, buf =>
      batchFetch k (n_act + 1) (fun j => samples (j + 1))
        (writeSlot buf (n_act * (bytes_per_3axes + 1)) (List.ofFn (samples 0)))

/-- The FIFO-drain acquisition loop of `read_continuos_xyz_fromfifo`
(lines 400–406): while `n_act_meas < n_exp_meas`, poll the FIFO count and
drain that many frames in one batch. -/
def ffLoop (n_exp : Nat) : List FifoEvent → Nat → List Nat → Option (Nat × List Nat)
  | [], n_act, buf => if n_exp ≤ n_act then some (n_act, buf) else none
  | e :: rest, n_act, buf =>
      if n_exp ≤ n_act then some (n_act, buf)
      else
        match e with
        | .fault => none
        | .poll status samples =>
            let r := batchFetch (get_nvalues_in_fifo status) n_act samples buf
            ffLoop n_exp rest r.2 r.1

/-- The FIFO counts reported by the polls of a trace, after the 6-bit mask. -/
def pollCounts : List FifoEvent → List Nat
  | [] => []
  | FifoEvent.poll status _ :: rest => get_nvalues_in_fifo status :: pollCounts rest
  | FifoEvent.fault :: rest => pollCounts rest

/-- Method `read_continuos_xyz_fromfifo` (lines 370–419): FIFO to stream, power to
`measure`, FIFO cleared, the batch-drain loop, power back to `standby` only on
normal fall-through; the stripped buffer is truncated to
`n_exp_meas * bytes_per_3axes` bytes and the timestamp grid synthesized as
`[i / sampling_rate for i in range(n_exp_meas)]`. -/
def read_continuos_xyz_fromfifo (cfg : Config) (acquisition_time : Nat)
    (events : List FifoEvent) : Config × Option (List Nat × List ℚ) :=
  let n_exp_meas := n_expected acquisition_time cfg.sampling_rate
  let n_exp_bytes := (bytes_per_3axes + 1) * n_exp_meas
  let buf0 : List Nat := List.replicate (3 * n_exp_bytes / 2) 0
  let cfg1 := (set_fifo_mode cfg "stream" 16).1
  let cfg2 := (set_power_mode cfg1 "measure").1
  let cfg3 := (clear_fifo cfg2).1
  match ffLoop n_exp_meas events 0 buf0 with
  | none => (cfg3, none)
  | some r =>
      let cfg4 := (set_power_mode cfg3 "standby").1
      let buf1 := (remove_first_bytes_from_bytearray_of_many_transactions r.2).take
          (n_exp_meas * bytes_per_3axes)
      let T := (List.range n_exp_meas).map (fun (i : Nat) => (i : ℚ) / cfg.sampling_rate)
      (cfg4, some (buf1, T))

example : remove_first_bytes_from_bytearray_of_many_transactions
    [9, 1, 2, 3, 4, 5, 6, 8, 11, 12, 13, 14, 15, 16] = [1, 2, 3, 4, 5, 6, 11, 12, 13, 14, 15, 16] := by
  decide

example : xyzbytes2g (List.replicate 12 0) = some ([0], [0], [0]) := by decide

example : xyzbytes2g [0, 0, 0, 0, 0, 0, 0] = some ([0], [0], [0]) := by decide

example : xyzbytes2g [1, 2, 3] = none := by decide

example : dictGet device_sampling_rates 500 = none := by decide

example : dictGet device_sampling_rates (mkRat 156 100) = some 0x04 := by decide

example : (1.56 : ℚ) = mkRat 156 100 := by norm_num

/-! ## Loop invariants -/

theorem batchFetch_count (k : Nat) :
    ∀ n_act samples buf, (batchFetch k n_act samples buf).2 = n_act + k := by
  induction k with
  | zero => intro n_act samples buf; simp [batchFetch]
  | succ k ih =>
      intro n_act samples buf
      simp only [batchFetch, ih]
      omega

theorem batchFetch_buf_length (k : Nat) :
    ∀ n_act samples buf, (batchFetch k n_act samples buf).1.length = buf.length := by
  induction k with
  | zero => intro n_act samples buf; simp [batchFetch]
  | succ k ih =>
      intro n_act samples buf
      simp only [batchFetch, ih, writeSlot_length]

/-- Each poll iteration leaves the accepted count monotonically non-decreasing. -/
theorem batchFetch_monotone (k n_act : Nat) (samples : Nat → Fin 7 → Nat) (buf : List Nat) :
    n_act ≤ (batchFetch k n_act samples buf).2 := by
  rw [batchFetch_count]
  omega

theorem rcLoop_some_spec (n_exp : Nat) (ev : List PollEvent) :
    ∀ a buf T n' buf' T', rcLoop n_exp ev a buf T = some (n', buf', T') →
      buf'.length = buf.length ∧ T'.length = T.length ∧ n' = max n_exp a := by
  induction ev with
  | nil =>
      intro a buf T n' buf' T' h
      simp only [rcLoop] at h
      split at h
      · obtain ⟨rfl, rfl, rfl⟩ : a = n' ∧ buf = buf' ∧ T = T' := by simpa using h
        refine ⟨rfl, rfl, by omega⟩
      · simp at h
  | cons e rest ih =>
      intro a buf T n' buf' T' h
      simp only [rcLoop] at h
      split at h
      · obtain ⟨rfl, rfl, rfl⟩ : a = n' ∧ buf = buf' ∧ T = T' := by simpa using h
        rename_i hle
        refine ⟨rfl, rfl, by omega⟩
      · rename_i hlt
        match e, h with
        | PollEvent.fault, h => simp at h
        | PollEvent.step status sample t, h =>
            simp only at h
            split at h
            · exact ih a buf T n' buf' T' h
            · obtain ⟨h1, h2, h3⟩ := ih _ _ _ _ _ _ h
              rw [writeSlot_length] at h1
              rw [List.length_set] at h2
              exact ⟨h1, h2, by omega⟩

theorem ffLoop_some_spec (n_exp : Nat) (ev : List FifoEvent) :
    ∀ a buf n' buf', ffLoop n_exp ev a buf = some (n', buf') →
      buf'.length = buf.length ∧ n_exp ≤ n' := by
  induction ev with
  | nil =>
      intro a buf n' buf' h
      simp only [ffLoop] at h
      split at h
      · obtain ⟨rfl, rfl⟩ : a = n' ∧ buf = buf' := by simpa using h
        rename_i hle
        exact ⟨rfl, hle⟩
      · simp at h
  | cons e rest ih =>
      intro a buf n' buf' h
      simp only [ffLoop] at h
      split at h
      · obtain ⟨rfl, rfl⟩ : a = n' ∧ buf = buf' := by simpa using h
        rename_i hle
        exact ⟨rfl, hle⟩
      · match e, h with
        | FifoEvent.fault, h => simp at h
        | FifoEvent.poll status samples, h =>
            simp only at h
            obtain ⟨h1, h2⟩ := ih _ _ _ _ h
            rw [batchFetch_buf_length] at h1
            exact ⟨h1, h2⟩

/-- Once the accepted count has reached the target, the loop exits at once,
consuming no further polls. -/
theorem ffLoop_exits_at_target (n_exp : Nat) (ev : List FifoEvent) (a : Nat) (buf : List Nat)
    (h : n_exp ≤ a) : ffLoop n_exp ev a buf = some (a, buf) := by
  cases ev <;> simp [ffLoop, h]

/-- If every (masked) FIFO count a poll can report is at most 32, the accepted
count at loop exit overshoots the target by at most 31. -/
theorem ffLoop_overshoot_bound (n_exp : Nat) (ev : List FifoEvent) :
    ∀ a buf n' buf', (∀ c ∈ pollCounts ev, c ≤ 32) → a ≤ n_exp + 31 →
      ffLoop n_exp ev a buf = some (n', buf') → n' ≤ n_exp + 31 := by
  induction ev with
  | nil =>
      intro a buf n' buf' _ ha h
      simp only [ffLoop] at h
      split at h
      · obtain ⟨rfl, rfl⟩ : a = n' ∧ buf = buf' := by simpa using h
        exact ha
      · simp at h
  | cons e rest ih =>
      intro a buf n' buf' hc ha h
      simp only [ffLoop] at h
      split at h
      · obtain ⟨rfl, rfl⟩ : a = n' ∧ buf = buf' := by simpa using h
        exact ha
      · rename_i hlt
        match e, h with
        | FifoEvent.fault, h => simp at h
        | FifoEvent.poll status samples, h =>
            simp only at h
            have hk : get_nvalues_in_fifo status ≤ 32 :=
              hc _ (by simp [pollCounts])
            have hrest : ∀ c ∈ pollCounts rest, c ≤ 32 := by
              intro c hcmem
              exact hc c (by simp [pollCounts, hcmem])
            refine ih _ _ _ _ hrest ?_ h
            rw [batchFetch_count]
            omega

/-! ## Auxiliary facts for the claims -/

theorem dictGet_eq_none {α β : Type} [DecidableEq α] (l : List (α × β)) (key : α)
    (h : key ∉ l.map Prod.fst) : dictGet l key = none := by
  induction l with
  | nil => rfl
  | cons p rest ih =>
      obtain ⟨k, v⟩ := p
      simp only [List.map_cons, List.mem_cons, not_or] at h
      simp [dictGet, h.1, ih h.2]

theorem flatten_map_drop_one_length (frames : List (List Nat))
    (h : ∀ f ∈ frames, f.length = 7) :
    ((frames.map (fun f => f.drop 1)).flatten).length = 6 * frames.length := by
  induction frames with
  | nil => rfl
  | cons f rest ih =>
      have hf : f.length = 7 := h f (List.mem_cons_self f rest)
      have hrest := ih (fun g hg => h g (List.mem_cons_of_mem f hg))
      simp only [List.map_cons, List.flatten_cons, List.length_append, List.length_drop,
        List.length_cons, hf, hrest]
      omega

/-- Little-endian unsigned 16-bit encoding of `v mod 65536`.
Modelled from the spec: the encoding half of the two's-complement round-trip
property (the decoding half, `word16le` / `sign_correct`, is the code's). -/
def encode_u16le (v : Int) : Nat × Nat :=
  ((v % 65536).toNat % 256, (v % 65536).toNat / 256)

/-- Example configuration used by concrete witnesses: already-applied settings
standby power, bypass FIFO, watermark 16, sampling rate 2 Hz, range 2 g. -/
def cfgDemo : Config := ⟨"standby", "bypass", 16, 2, 2⟩

/-! ## The claims -/

/-- C1: evaluation of the decoder at a buffer of 12 bytes (k = 2 samples, all
zero).  `xyzbytes2g` returns per-axis sequences of length 1, not 2: the
comprehension iterates `i` over `range(len(buf)//6) = range(2)` but keeps only
`i % 6 == 0`, so only the slice `buf[0:6]` is unpacked. -/
theorem xyzbytes2g_undercounts_two_sample_buffer :
    xyzbytes2g (List.replicate 12 0) = some ([0], [0], [0]) := by decide

/-- C2 counterexample: a bus fault in the first loop iteration of
`read_continuos_xyz` makes the method exit with the result unproduced and the
tracked power mode still `'measure'` — standby is not restored on this exit
path, since the restore is reached only by normal fall-through. -/
theorem read_continuos_xyz_fault_exit_keeps_measure :
    (read_continuos_xyz cfgDemo 1 [PollEvent.fault]).2 = none ∧
    (read_continuos_xyz cfgDemo 1 [PollEvent.fault]).1.power_mode = "measure" := by decide

/-- C2 (amended): in both fixed-duration acquisitions the power mode is
restored to `'standby'` on normal fall-through completion of the acquisition
loop — but only there; an exception inside the loop leaves `'measure'`. -/
theorem continuos_restore_standby_on_normal_return :
    (∀ cfg acq ev r, (read_continuos_xyz cfg acq ev).2 = some r →
        (read_continuos_xyz cfg acq ev).1.power_mode = "standby") ∧
    (∀ cfg acq ev r, (read_continuos_xyz_fromfifo cfg acq ev).2 = some r →
        (read_continuos_xyz_fromfifo cfg acq ev).1.power_mode = "standby") := by
  constructor
  · intro cfg acq ev r h
    simp only [read_continuos_xyz] at h ⊢
    split at h
    · simp at h
    · rfl
  · intro cfg acq ev r h
    simp only [read_continuos_xyz_fromfifo] at h ⊢
    split at h
    · simp at h
    · rfl

theorem continuos_restore_standby_witness :
    (read_continuos_xyz cfgDemo 1
        [PollEvent.step 255 (fun _ => 0) 3, PollEvent.step 255 (fun _ => 0) 4]).1.power_mode
      = "standby" :=
  continuos_restore_standby_on_normal_return.1 cfgDemo 1
    [PollEvent.step 255 (fun _ => 0) 3, PollEvent.step 255 (fun _ => 0) 4]
    (List.replicate 12 0, [3, 4]) (by decide)

/-- C3: for a sampling-rate argument outside the enumerated legal set,
`set_sampling_rate` fails (KeyError on the rate dictionary, modelled as
`none`) and issues zero bus writes. -/
theorem set_sampling_rate_rejects_unsupported (cfg : Config) (sr : ℚ)
    (h : sr ∉ device_sampling_rates.map Prod.fst) :
    set_sampling_rate cfg sr = (none, []) := by
  simp [set_sampling_rate, dictGet_eq_none device_sampling_rates sr h]

theorem set_sampling_rate_rejects_witness :
    set_sampling_rate cfgDemo 500 = (none, []) :=
  set_sampling_rate_rejects_unsupported cfgDemo 500 (by decide)

/-- C4: in the FIFO-drain loop of `read_continuos_xyz_fromfifo`, the accepted
count never decreases across an iteration's batch, the loop returns only with
an accepted count at or above the target, and it exits at once when the target
has been reached. -/
theorem fromfifo_loop_monotone_and_terminates :
    (∀ k n_act samples buf, n_act ≤ (batchFetch k n_act samples buf).2) ∧
    (∀ n_exp ev n_act buf n' buf',
        ffLoop n_exp ev n_act buf = some (n', buf') → n_exp ≤ n') ∧
    (∀ n_exp ev n_act buf, n_exp ≤ n_act →
        ffLoop n_exp ev n_act buf = some (n_act, buf)) := by
  refine ⟨batchFetch_monotone, ?_, ffLoop_exits_at_target⟩
  intro n_exp ev n_act buf n' buf' h
  exact (ffLoop_some_spec n_exp ev n_act buf n' buf' h).2

theorem fromfifo_loop_terminates_witness :
    ffLoop 5 [] 7 [] = some (7, []) :=
  fromfifo_loop_monotone_and_terminates.2.2 5 [] 7 [] (by decide)

/-- C5: whenever `read_many_xyz n` completes, the stripped buffer has exactly
`6 * n` bytes and the timestamp sequence exactly `n` entries, for every `n`
and bus trace, despite the `int(n * 1.5)` over-allocation of the timestamp
storage. -/
theorem read_many_xyz_exact_lengths (n : Nat) (ev : List PollEvent)
    (r : List Nat × List Int) (h : read_many_xyz n ev = some r) :
    r.1.length = bytes_per_3axes * n ∧ r.2.length = n := by
  simp only [read_many_xyz] at h
  split at h
  · simp at h
  · rename_i s heq
    obtain ⟨n', buf', T'⟩ := s
    obtain ⟨hbuf, hT, hcount⟩ := rcLoop_some_spec n ev 0 _ _ n' buf' T' heq
    simp only [List.length_replicate] at hbuf hT
    cases h
    constructor
    · rw [remove_first_bytes_eq_stripFrom, stripFrom_length]
      simp only [bytes_per_3axes] at hbuf ⊢
      omega
    · simp only [List.length_take]
      omega

theorem read_many_xyz_exact_lengths_witness :
    (List.replicate 6 0 : List Nat).length = bytes_per_3axes * 1 ∧
    ([5] : List Int).length = 1 :=
  read_many_xyz_exact_lengths 1 [PollEvent.step 128 (fun _ => 0) 5]
    (List.replicate 6 0, [5]) (by decide)

/-- C6 counterexample: the decoder succeeds on a 7-byte buffer, whose length
is not a multiple of 6 — no `MalformedBuffer`-style failure occurs. -/
theorem xyzbytes2g_succeeds_on_seven_bytes :
    xyzbytes2g [1, 2, 3, 4, 5, 6, 7] = some ([513], [1027], [1541]) ∧ 7 % 6 ≠ 0 := by
  decide

/-- C6 (amended): `xyzbytes2g` performs no divisibility check.  It fails
(`ValueError` from unpacking an empty `zip`, modelled as `none`) exactly when
the buffer holds fewer than 6 bytes; any length ≥ 6, multiple of 6 or not,
succeeds with the extra bytes silently ignored. -/
theorem xyzbytes2g_fails_iff_short (buf : List Nat) :
    xyzbytes2g buf = none ↔ buf.length < 6 := by
  simp only [xyzbytes2g]
  rcases hn : buf.length / bytes_per_3axes with _ | n
  · simp only [bytes_per_3axes] at hn
    simp only [List.range_zero, List.filter_nil, List.map_nil]
    constructor
    · intro _; omega
    · intro _; trivial
  · have h6 : buf.length ≥ 6 := by
      simp only [bytes_per_3axes] at hn
      omega
    have h0 : (0 : Nat) ∈ (List.range (n + 1)).filter (fun i => i % bytes_per_3axes == 0) := by
      simp [List.mem_filter, List.mem_range, bytes_per_3axes]
    rcases hf : (List.range (n + 1)).filter (fun i => i % bytes_per_3axes == 0) with _ | ⟨i, is⟩
    · rw [hf] at h0
      simp at h0
    · simp only [hf, List.map_cons]
      constructor
      · intro hcontr
        simp at hcontr
      · intro hlen
        omega

theorem xyzbytes2g_fails_iff_short_witness :
    xyzbytes2g [1, 2, 3] = none ↔ ([1, 2, 3] : List Nat).length < 6 :=
  xyzbytes2g_fails_iff_short [1, 2, 3]

/-- C7: the FIFO-control byte written by `set_fifo_mode` is the 3-bit mode tag
`100` followed by the watermark count padded to 5 bits: stream/16 writes
`0b10010000 = 0x90`, and bypass writes `0x00` for every watermark argument. -/
theorem set_fifo_mode_control_byte_encoding :
    (∀ cfg, (set_fifo_mode cfg "stream" 16).2 = [(regaddr_fifoctl, 0x90)]) ∧
    (∀ cfg w, (set_fifo_mode cfg "bypass" w).2 = [(regaddr_fifoctl, 0x00)]) := by
  constructor
  · intro cfg
    rfl
  · intro cfg w
    simp [set_fifo_mode, fifo_ctl_byte]

theorem set_fifo_mode_control_byte_witness :
    (set_fifo_mode cfgDemo "stream" 16).2 = [(regaddr_fifoctl, 0x90)] :=
  set_fifo_mode_control_byte_encoding.1 cfgDemo

/-- C8: decoding with the code's sign correction inverts little-endian u16
encoding of `v mod 65536` on the whole signed 16-bit range, with the spec's
four concrete byte pairs. -/
theorem twos_complement_round_trip :
    (∀ v : Int, -32768 ≤ v → v ≤ 32767 →
        sign_correct (word16le (encode_u16le v).1 (encode_u16le v).2) = v) ∧
    sign_correct (word16le 0xFF 0xFF) = -1 ∧
    sign_correct (word16le 0x00 0x80) = -32768 ∧
    sign_correct (word16le 0xFF 0x7F) = 32767 ∧
    sign_correct (word16le 0x00 0x00) = 0 := by
  refine ⟨?_, by decide, by decide, by decide, by decide⟩
  intro v h1 h2
  simp only [sign_correct, word16le, encode_u16le]
  split <;> omega

theorem twos_complement_round_trip_witness :
    sign_correct (word16le (encode_u16le (-12345)).1 (encode_u16le (-12345)).2) = -12345 :=
  twos_complement_round_trip.1 (-12345) (by decide) (by decide)

/-- C9: stripping a raw stream of `m` 7-byte transaction frames yields the
concatenation of each frame's last 6 bytes, in frame order, hence exactly
`6 * m` bytes. -/
theorem remove_first_bytes_strips_frames (frames : List (List Nat))
    (h : ∀ f ∈ frames, f.length = 7) :
    remove_first_bytes_from_bytearray_of_many_transactions frames.flatten
        = (frames.map (fun f => f.drop 1)).flatten ∧
    (remove_first_bytes_from_bytearray_of_many_transactions frames.flatten).length
        = 6 * frames.length := by
  rw [remove_first_bytes_eq_stripFrom, stripFrom_join frames h]
  exact ⟨rfl, flatten_map_drop_one_length frames h⟩

theorem remove_first_bytes_strips_frames_witness :
    remove_first_bytes_from_bytearray_of_many_transactions
        ([[9, 1, 2, 3, 4, 5, 6], [8, 11, 12, 13, 14, 15, 16]] : List (List Nat)).flatten
        = (([[9, 1, 2, 3, 4, 5, 6], [8, 11, 12, 13, 14, 15, 16]] : List (List Nat)).map
            (fun f => f.drop 1)).flatten ∧
    (remove_first_bytes_from_bytearray_of_many_transactions
        ([[9, 1, 2, 3, 4, 5, 6], [8, 11, 12, 13, 14, 15, 16]] : List (List Nat)).flatten).length
        = 6 * ([[9, 1, 2, 3, 4, 5, 6], [8, 11, 12, 13, 14, 15, 16]] : List (List Nat)).length :=
  remove_first_bytes_strips_frames
    [[9, 1, 2, 3, 4, 5, 6], [8, 11, 12, 13, 14, 15, 16]] (by decide)

/-- C10: the batch drain of `read_continuos_xyz_fromfifo` performs a reported
count's fetches without re-checking the target, so the accepted count can
strictly exceed the target at loop exit (by at most 31 when each reported
count respects the device's cap of 32); the returned buffer is nevertheless
truncated to exactly `6 × target` bytes and the synthesized time grid has
exactly `target` entries. -/
theorem fromfifo_overshoot_and_exact_truncation :
    (∀ cfg acq ev r, (read_continuos_xyz_fromfifo cfg acq ev).2 = some r →
        r.1.length = bytes_per_3axes * n_expected acq cfg.sampling_rate ∧
        r.2.length = n_expected acq cfg.sampling_rate) ∧
    (∀ n_exp ev a buf n' buf', (∀ c ∈ pollCounts ev, c ≤ 32) → a ≤ n_exp + 31 →
        ffLoop n_exp ev a buf = some (n', buf') → n' ≤ n_exp + 31) ∧
    ((ffLoop 2 [FifoEvent.poll 32 (fun _ _ => 0)] 0 (List.replicate 21 0)).map Prod.fst
        = some 32 ∧ 2 < 32) := by
  refine ⟨?_, ffLoop_overshoot_bound, by decide⟩
  intro cfg acq ev r h
  simp only [read_continuos_xyz_fromfifo] at h
  split at h
  · simp at h
  · rename_i s heq
    obtain ⟨n', buf'⟩ := s
    obtain ⟨hbuf, hge⟩ := ffLoop_some_spec _ ev 0 _ n' buf' heq
    simp only [List.length_replicate] at hbuf
    cases h
    constructor
    · rw [List.length_take, remove_first_bytes_eq_stripFrom, stripFrom_length]
      simp only [bytes_per_3axes] at hbuf ⊢
      omega
    · rw [List.length_map, List.length_range]

theorem fromfifo_exact_truncation_witness :
    (List.replicate 12 0 : List Nat).length = bytes_per_3axes * n_expected 1 cfgDemo.sampling_rate ∧
    ((List.range 2).map (fun (i : Nat) => (i : ℚ) / cfgDemo.sampling_rate)).length
        = n_expected 1 cfgDemo.sampling_rate :=
  fromfifo_overshoot_and_exact_truncation.1 cfgDemo 1 [FifoEvent.poll 2 (fun _ _ => 0)]
    (List.replicate 12 0, (List.range 2).map (fun (i : Nat) => (i : ℚ) / cfgDemo.sampling_rate)) (by rfl)


end ADXL345
